import Mathlib

/-!
Verification of the goblocks application-framework core against its
natural-language specification.  The Go sources are shallowly embedded:
pure logic becomes Lean functions, stateful code becomes explicit state
passing, Go strings are modelled as Lean strings (byte = character on the
ASCII inputs exercised here), machine integers as `Int`/`Nat`.
-/

namespace Goblocks

/-! ## HTTP responses (httpreply/common.go and net/http's Error) -/

/-- A written HTTP response: status code, the Content-Type header (empty when
not set), the Content-Length header (none when not set), and the body. -/
structure Response where
  code : Nat
  contentType : String
  contentLength : Option Nat
  body : String
  deriving Repr, DecidableEq

/-- httpreply.Reply: sets Content-Type when nonempty, Content-Length when the
content is nonempty, writes the status code and the body. -/
def httpreplyReply (code : Nat) (contentType : String) (content : String) : Response :=
  { code := code
    contentType := if contentType = "" then "" else contentType
    contentLength := if content.length > 0 then some content.length else none
    body := content }

/-- Model of Go's fmt.Sprintf "%s" applied to an `error` interface value:
a nil error prints as "%!s(<nil>)", otherwise the error message. -/
def goSprintfErr : Option String → String
  | some m => m
  | none => "%!s(<nil>)"

/-- httpreply.Error: a JSON error envelope around the error's message. -/
def httpreplyError (err : Option String) (code : Nat) : Response :=
  httpreplyReply code "application/json" ("\x7b\"error\":\"" ++ goSprintfErr err ++ "\"\x7d")

/-- net/http's StatusText for the status codes the middleware uses. -/
def goStatusText (code : Nat) : String :=
  if code = 401 then "Unauthorized"
  else if code = 429 then "Too Many Requests"
  else if code = 500 then "Internal Server Error"
  else ""

/-- Model of net/http's http.Error: plain-text content type, the status text
plus a newline as body; it does not set a Content-Length header itself. -/
def goHttpError (code : Nat) : Response :=
  { code := code
    contentType := "text/plain; charset=utf-8"
    contentLength := none
    body := goStatusText code ++ "\n" }

/-! ## Requests and the token authentication provider (apiauth/token) -/

/-- The part of an http.Request the embedded middleware consumes. -/
structure Request where
  headers : List (String × String)
  remoteAddr : String
  deriving Repr, DecidableEq

/-- Header.Get: first value for the key, empty string when absent. -/
def Request.headerGet (r : Request) (key : String) : String :=
  match r.headers.find? (fun p => p.1 = key) with
  | some p => p.2
  | none => ""

/-- token.Auth: the configured secret. -/
structure TokenAuth where
  secret : String
  deriving Repr, DecidableEq

/-- token.Auth.Authorized: nil error when the Api-Token header equals the
secret, otherwise the invalid-token error. -/
def tokenAuthorized (a : TokenAuth) (r : Request) : Option String :=
  if r.headerGet "Api-Token" = a.secret then none else some "missing or invalid token"

/-- NewServer's auth-provider construction: a provider exists only when the
configured token is nonempty. -/
def newServerAuthProvider (token : String) : Option TokenAuth :=
  if token = "" then none else some { secret := token }

/-! ## Safety middlewares (unnamed httpserver middleware file)

Each middleware either forwards the request to the next handler or refuses
it with a response it wrote itself; `MWResult` records which happened. -/

/-- Outcome of one safety middleware: forwarded to `next`, or refused with
the response the middleware wrote. -/
inductive MWResult where
  | forwarded
  | refused (resp : Response)
  deriving Repr, DecidableEq

/-- connLimiterMiddleware: refuse with http.Error 429 when the connection
count already reached the limit, otherwise forward. -/
def connLimiterMiddleware (connCount : Int) (openConnLimit : Int) : MWResult :=
  if connCount ≥ openConnLimit then .refused (goHttpError 429) else .forwarded

/-- Token-bucket limiter state as consumed through rate.Limiter.Allow:
`Allow` takes a token when at least one is available and refuses without
consuming otherwise (x/time/rate semantics; refill omitted, it does not
affect the consumption property). -/
structure RateLimiter where
  limit : ℚ
  burst : ℤ
  tokens : ℚ
  deriving Repr, DecidableEq

/-- rate.Limiter.Allow: consume one token if available. -/
def limiterAllow (l : RateLimiter) : Bool × RateLimiter :=
  if 1 ≤ l.tokens then (true, { l with tokens := l.tokens - 1 }) else (false, l)

/-- rateLimiterMiddleware: refuse with http.Error 429 when Allow() is false,
otherwise forward; returns the limiter state after the call. -/
def rateLimiterMiddleware (l : RateLimiter) : MWResult × RateLimiter :=
  let (ok, l2) := limiterAllow l
  if ok then (.forwarded, l2) else (.refused (goHttpError 429), l2)

/-- authMiddleware: when a provider is configured and rejects the request,
refuse with http.Error 401; otherwise forward. -/
def authMiddleware (auth : Option TokenAuth) (r : Request) : MWResult :=
  match auth with
  | none => .forwarded
  | some a =>
    match tokenAuthorized a r with
    | some _ => .refused (goHttpError 401)
    | none => .forwarded

/-! ## Panic capture middleware -/

/-- A Go panic payload: an error value, a plain string, or something else. -/
inductive GoPanic where
  | goError (msg : String)
  | goString (s : String)
  deriving Repr, DecidableEq

/-- The type assertion e.(error) as used in panicLoggerMiddleware: yields
the error for error payloads and nil otherwise. -/
def panicAsError : GoPanic → Option String
  | .goError m => some m
  | .goString _ => none

/-- A structured log entry: level, message and fields. -/
structure LogEntry where
  level : String
  msg : String
  fields : List (String × String)
  deriving Repr, DecidableEq

/-- What the inner handler did: returned normally having written these
responses, or panicked with a payload after writing these responses. -/
inductive HandlerRun where
  | normal (written : List Response)
  | panicked (v : GoPanic) (written : List Response)
  deriving Repr, DecidableEq

/-- Output of the panic middleware: log entries emitted, responses written
(inner handler's plus its own), and the panic it re-raised, if any. -/
structure PanicMWOut where
  logs : List LogEntry
  written : List Response
  repanic : Option GoPanic
  deriving Repr, DecidableEq

/-- panicLoggerMiddleware: run the next handler; on panic, recover, log
"PANIC" at error level with the request id and a stack field, write the
500 error body via httpreply.Error on the asserted error value, and return
normally (the deferred function does not re-raise the panic). -/
def panicLoggerMiddleware (reqID : String) (next : HandlerRun) : PanicMWOut :=
  match next with
  | .normal ws => { logs := [], written := ws, repanic := none }
  | .panicked v ws =>
    { logs := [{ level := "error", msg := "PANIC",
                 fields := [("rid", reqID), ("stack", "<stack>")] }]
      written := ws ++ [httpreplyError (panicAsError v) 500]
      repanic := none }

/-! ## Service registration (app/app.go RegisterService) -/

/-- ASCII letter test, the character class [a-zA-Z] of the name pattern. -/
def isAsciiLetter (c : Char) : Bool :=
  ('a' ≤ c && c ≤ 'z') || ('A' ≤ c && c ≤ 'Z')

/-- regexp.MustCompile("[a-zA-Z][a-zA-Z_]*").MatchString: the pattern is not
anchored, so MatchString searches for a match anywhere in the name; a match
is one [a-zA-Z] character followed by zero or more [a-zA-Z_] characters, so
a match exists exactly when some character of the name is an ASCII letter. -/
def reNameMatchString (s : String) : Bool :=
  s.data.any isAsciiLetter

/-- Association-list assignment m[k] = v: overwrite an existing entry in
place, append a fresh one (Go map assignment). -/
def assocSet {α : Type} (l : List (String × α)) (k : String) (v : α) : List (String × α) :=
  match l with
  | [] => [(k, v)]
  | (k2, v2) :: rest => if k2 = k then (k, v) :: rest else (k2, v2) :: assocSet rest k v

/-- Association-list lookup (first entry wins, Go map read on the lists
built here, whose keys are distinct). -/
def assocFind {α : Type} : List (String × α) → String → Option α
  | [], _ => none
  | (k2, v2) :: rest, k => if k2 = k then some v2 else assocFind rest k

/-- RegisterService: reject the name with the invalid-service-name error when
the (unanchored) pattern does not match, otherwise store the registration in
the serviceDefs map under the name.  The config/factory payload is opaque
here; the registry keeps the set of registered names. -/
def RegisterService (serviceDefs : List (String × Unit)) (name : String) :
    Except String (List (String × Unit)) :=
  if !reNameMatchString name then
    .error "service name must match the unquoted yaml key format (e.g. [a-zA-Z_]+)"
  else
    .ok (assocSet serviceDefs name ())

/-! ## Status reporter (appstatus/appstatus.go) -/

/-- statusReporter state: the process-alive bit and the per-service ready
map, kept as an association list in registration order. -/
structure StatusState where
  alive : Bool
  ready : List (String × Bool)
  deriving Repr, DecidableEq

/-- appstatus.New: alive, no services registered. -/
def statusNew : StatusState :=
  { alive := true, ready := [] }

/-- GetServiceReporter: fail with the already-registered error when the name
exists, otherwise add the name mapped to false. -/
def GetServiceReporter (s : StatusState) (name : String) : Except String StatusState :=
  if (assocFind s.ready name).isSome then .error "service already registered"
  else .ok { s with ready := assocSet s.ready name false }

/-- serviceReporter.Ready: set the service's flag to true. -/
def reporterReady (s : StatusState) (name : String) : StatusState :=
  { s with ready := assocSet s.ready name true }

/-- serviceReporter.NotReady: set the service's flag to false. -/
def reporterNotReady (s : StatusState) (name : String) : StatusState :=
  { s with ready := assocSet s.ready name false }

/-- serviceReporter.Dead: clear the alive bit. -/
def reporterDead (s : StatusState) : StatusState :=
  { s with alive := false }

/-- IsReady: the conjunction over all registered flags. -/
def IsReady (s : StatusState) : Bool :=
  s.ready.all (fun p => p.2)

/-- IsAlive: the alive bit. -/
def IsAlive (s : StatusState) : Bool :=
  s.alive

/-- An operation on the status reporter, as issued by the orchestrator and
the per-service reporter handles. -/
inductive StatusOp where
  | register (name : String)
  | ready (name : String)
  | notReady (name : String)
  deriving Repr, DecidableEq

/-- Effect of one operation on the reporter state; a failed registration
leaves the state unchanged (the caller gets the error, no entry is added). -/
def statusStep (s : StatusState) : StatusOp → StatusState
  | .register n =>
    match GetServiceReporter s n with
    | .ok s2 => s2
    | .error _ => s
  | .ready n => reporterReady s n
  | .notReady n => reporterNotReady s n

/-- Run a sequence of operations from the freshly created reporter. -/
def statusExec (ops : List StatusOp) : StatusState :=
  ops.foldl statusStep statusNew

/-- Specification-side view of one service's flag after a sequence of
operations: registration initialises it to false once, Ready and NotReady
overwrite it. -/
def flagStep (n : String) (acc : Option Bool) : StatusOp → Option Bool
  | .register m => if m = n then (if acc = none then some false else acc) else acc
  | .ready m => if m = n then some true else acc
  | .notReady m => if m = n then some false else acc

/-- The flag of service `n` after running `ops`, computed on the
specification side. -/
def flagAfter (ops : List StatusOp) (n : String) : Option Bool :=
  ops.foldl (flagStep n) none

/-- One step of the most-recent-report view: Ready ↦ true, NotReady ↦
false, registration is not a report. -/
def repStep (n : String) (acc : Option Bool) : StatusOp → Option Bool
  | .ready m => if m = n then some true else acc
  | .notReady m => if m = n then some false else acc
  | .register _ => acc

/-- The most recent per-service report (Ready ↦ true, NotReady ↦ false)
issued for `n` in `ops`, none when no report was issued. -/
def lastReport (ops : List StatusOp) (n : String) : Option Bool :=
  ops.foldl (repStep n) none

/-- Whether `ops` contains a registration of `n`. -/
def registersName (ops : List StatusOp) (n : String) : Prop :=
  StatusOp.register n ∈ ops

/-- Realisability of an operation sequence: Ready/NotReady are only issued
through a reporter handle, so only for names registered earlier. -/
def wfFrom (regd : List String) : List StatusOp → Prop
  | [] => True
  | .register n :: rest => wfFrom (n :: regd) rest
  | .ready n :: rest => n ∈ regd ∧ wfFrom regd rest
  | .notReady n :: rest => n ∈ regd ∧ wfFrom regd rest

/-- A realisable operation sequence, starting from no registered names. -/
def wfOps (ops : List StatusOp) : Prop :=
  wfFrom [] ops

/-! ## Shutdown tail of the orchestrator (app/app.go runEverything) -/

/-- What runEverything does after the worker group returns: the app reporter
is marked not-ready, the process sleeps for the configured shutdown delay,
and the termination is logged.  The result records the status state after
the mark, the duration slept, and the final log entry. -/
def runEverythingFinish (s : StatusState) (shutdownDelay : Nat) (egErr : Option String) :
    StatusState × Nat × LogEntry :=
  let s2 := reporterNotReady s "app"
  ( s2
  , shutdownDelay
  , match egErr with
    | some e => { level := "error", msg := "terminated with error", fields := [("error", e)] }
    | none => { level := "info", msg := "terminated successfully", fields := [] } )

/-! ## Request metrics (httpserver/metrics.go, instrumentation middleware) -/

/-- Per-(service, endpoint) counters: the error counter's value and the
number of latency observations. -/
structure ServiceMetrics where
  errorsCounter : String × String → Nat
  latencyCount : String × String → Nat

/-- Increment a labelled counter. -/
def counterAdd (c : String × String → Nat) (l : String × String) (v : Nat) :
    String × String → Nat :=
  fun p => if p = l then c p + v else c p

/-- isError: the handler error is non-nil. -/
def isErrorGo (err : Option String) : Bool :=
  err.isSome

/-- ScoreMethod: increment the error counter when the error is non-nil, and
observe the latency histogram once, both at labels (service, endpoint). -/
def ScoreMethod (m : ServiceMetrics) (service endpoint : String) (err : Option String) :
    ServiceMetrics :=
  let labels := (service, endpoint)
  { errorsCounter :=
      if isErrorGo err then counterAdd m.errorsCounter labels 1 else m.errorsCounter
    latencyCount := counterAdd m.latencyCount labels 1 }

/-- instrumentationMiddleware, metrics and error-reply part: run the typed
handler, score the method with the returned error (the deferred call runs
once on return), and write the JSON error body with the handler's status
code when the error is non-nil. -/
def instrumentationMiddleware (handler : Request → Nat × Option String)
    (m : ServiceMetrics) (service endpoint : String) (r : Request) :
    ServiceMetrics × Option Response :=
  let res := handler r
  let m2 := ScoreMethod m service endpoint res.2
  (m2, if res.2.isSome then some (httpreplyError res.2 res.1) else none)

/-! ## Rate limiter construction (both NewServer variants) -/

/-- The float64 value of the Go literal 1.2 (rateLimitBurstRatio), as an
exact rational: 5404319552844595 / 2^52. -/
def float64lit1p2 : ℚ :=
  5404319552844595 / 4503599627370496

/-- Go's float64-to-int conversion: truncation toward zero. -/
def goTruncToInt (q : ℚ) : ℤ :=
  if q < 0 then -(Int.floor (-q)) else Int.floor q

/-- Round a rational to an integer, nearest with ties to even — the IEEE 754
rounding of the significand. -/
def roundNearestEven (x : ℚ) : ℤ :=
  if x - (Int.floor x : ℚ) < 1 / 2 then Int.floor x
  else if 1 / 2 < x - (Int.floor x : ℚ) then Int.floor x + 1
  else if Int.floor x % 2 = 0 then Int.floor x else Int.floor x + 1

/-- Binary exponent search: shift the positive rational into [1, 2) while
tracking the exponent; the fuel covers the whole double range and beyond. -/
def floatExpAux (fuel : Nat) (q : ℚ) (e : ℤ) : ℤ :=
  if h : fuel = 0 then e
  else if q < 1 then floatExpAux (fuel - 1) (q * 2) (e - 1)
  else if 2 ≤ q then floatExpAux (fuel - 1) (q / 2) (e + 1)
  else e
  termination_by fuel
  decreasing_by
  · exact Nat.sub_one_lt h
  · exact Nat.sub_one_lt h

/-- The binary exponent e of a positive rational: 2^e ≤ q < 2^(e+1). -/
def floatExp (q : ℚ) : ℤ :=
  floatExpAux 5000 q 0

/-- The power 2^k as a rational, for an integer k. -/
def floatScale (k : ℤ) : ℚ :=
  if 0 ≤ k then ((2 ^ k.toNat : ℕ) : ℚ) else 1 / ((2 ^ (-k).toNat : ℕ) : ℚ)

/-- Round a positive rational to the nearest double: 53-bit significand,
round to nearest, ties to even (normal range only; the rates involved are
far from overflow and underflow). -/
def floatRoundPos (q : ℚ) : ℚ :=
  (roundNearestEven (q * floatScale (52 - floatExp q)) : ℚ) / floatScale (52 - floatExp q)

/-- Round a rational to the nearest double. -/
def floatRound (q : ℚ) : ℚ :=
  if q = 0 then 0
  else if q < 0 then -(floatRoundPos (-q))
  else floatRoundPos q

/-- The burst passed to rate.NewLimiter:
int(float64(cfg.RateLimit) * rateLimitBurstRatio), with the float64
multiplication modelled exactly: the product of the double 1.2 and the rate
is rounded to the nearest double before the truncating conversion to int
(the rate itself, a float64 field, is already a double). -/
def rateLimitBurst (r : ℚ) : ℤ :=
  goTruncToInt (floatRound (float64lit1p2 * r))

/-- NewServer's limiter: rate.NewLimiter(cfg.RateLimit, burst); a fresh
token bucket starts with a full burst of tokens. -/
def newServerRateLimiter (r : ℚ) : RateLimiter :=
  { limit := r, burst := rateLimitBurst r, tokens := (rateLimitBurst r : ℚ) }

/-- The burst the specification sentence describes: the ceiling of 1.2×R. -/
def specCeilBurst (r : ℚ) : ℤ :=
  Int.ceil ((12 / 10 : ℚ) * r)

/-! ## Literal parsers (models of Go strconv and time.ParseDuration as
consumed by conftool's setField; decimal forms only, which is what the
repository's default tags use) -/

/-- ASCII digit test. -/
def isDigitChar (c : Char) : Bool :=
  '0' ≤ c && c ≤ '9'

/-- Decimal digits to a natural number. -/
def digitsToNat (cs : List Char) : Nat :=
  cs.foldl (fun a c => a * 10 + (c.toNat - 48)) 0

/-- strconv number errors: ErrSyntax or ErrRange. -/
inductive NumErr where
  | syntaxErr
  | rangeErr
  deriving Repr, DecidableEq

/-- strconv.ParseUint(s, 10, 64): decimal digits, no sign, 64-bit range. -/
def goParseUint (s : String) : Except NumErr Nat :=
  let cs := s.data
  if cs = [] then .error .syntaxErr
  else if cs.all isDigitChar then
    let v := digitsToNat cs
    if v ≤ 2 ^ 64 - 1 then .ok v else .error .rangeErr
  else .error .syntaxErr

/-- strconv.ParseInt(s, 10, 64): optional sign, decimal digits, 64-bit
signed range. -/
def goParseInt (s : String) : Except NumErr Int :=
  let cs := s.data
  let sd : Bool × List Char :=
    match cs with
    | '+' :: rest => (false, rest)
    | '-' :: rest => (true, rest)
    | _ => (false, cs)
  if sd.2 = [] then .error .syntaxErr
  else if sd.2.all isDigitChar then
    let v := digitsToNat sd.2
    if sd.1 then
      if v ≤ 2 ^ 63 then .ok (-(v : Int)) else .error .rangeErr
    else
      if v ≤ 2 ^ 63 - 1 then .ok (v : Int) else .error .rangeErr
  else .error .syntaxErr

/-- strconv.ParseBool: the fixed list of accepted literals. -/
def goParseBool (s : String) : Option Bool :=
  if s = "1" ∨ s = "t" ∨ s = "T" ∨ s = "true" ∨ s = "TRUE" ∨ s = "True" then some true
  else if s = "0" ∨ s = "f" ∨ s = "F" ∨ s = "false" ∨ s = "FALSE" ∨ s = "False" then some false
  else none

/-- strconv.ParseFloat(s, 64) on decimal forms, kept as an exact rational
(the model does not round to binary floating point; Inf/NaN/hex forms and
digit-group underscores are outside the forms used by the config tags). -/
def goParseFloat (s : String) : Option ℚ :=
  let cs := s.data
  let sd : Bool × List Char :=
    match cs with
    | '+' :: rest => (false, rest)
    | '-' :: rest => (true, rest)
    | _ => (false, cs)
  let ip := sd.2.takeWhile isDigitChar
  let cs2 := sd.2.drop ip.length
  let fpRest : List Char × List Char :=
    match cs2 with
    | '.' :: rest => (rest.takeWhile isDigitChar, rest.drop (rest.takeWhile isDigitChar).length)
    | _ => ([], cs2)
  if ip = [] ∧ fpRest.1 = [] then none
  else
    let mant : ℚ := (digitsToNat ip : ℚ) + (digitsToNat fpRest.1 : ℚ) / ((10 : ℚ) ^ fpRest.1.length)
    let expPart : Option ℤ :=
      match fpRest.2 with
      | [] => some 0
      | e :: rest =>
        if e = 'e' ∨ e = 'E' then
          let ed : Bool × List Char :=
            match rest with
            | '+' :: r2 => (false, r2)
            | '-' :: r2 => (true, r2)
            | _ => (false, rest)
          if ed.2 ≠ [] ∧ ed.2.all isDigitChar then
            some (if ed.1 then -(digitsToNat ed.2 : ℤ) else (digitsToNat ed.2 : ℤ))
          else none
        else none
    match expPart with
    | none => none
    | some ex => some ((if sd.1 then -mant else mant) * (10 : ℚ) ^ ex)

/-- The unit table of time.ParseDuration, scales in nanoseconds. -/
def durationUnits : List (List Char × Nat) :=
  [ ("ns".data, 1), ("us".data, 1000), ("µs".data, 1000), ("μs".data, 1000)
  , ("ms".data, 1000000), ("s".data, 1000000000)
  , ("m".data, 60000000000), ("h".data, 3600000000000) ]

/-- The term loop of time.ParseDuration: each term is digits, an optional
fraction, and a unit looked up in the table; terms add up in nanoseconds
(fractional remainders truncate; overflow checks omitted). -/
def parseDurationLoop : Nat → List Char → Option Nat
  | _, [] => some 0
  | 0, _ => none
  | fuel + 1, cs =>
    let ip := cs.takeWhile isDigitChar
    let cs2 := cs.drop ip.length
    let fpRest : List Char × List Char :=
      match cs2 with
      | '.' :: rest => (rest.takeWhile isDigitChar, rest.drop (rest.takeWhile isDigitChar).length)
      | _ => ([], cs2)
    if ip = [] ∧ fpRest.1 = [] then none
    else
      let u := fpRest.2.takeWhile (fun c => !(isDigitChar c) && c ≠ '.')
      let cs4 := fpRest.2.drop u.length
      match durationUnits.find? (fun p => p.1 = u) with
      | none => none
      | some su =>
        let v := digitsToNat ip * su.2 + digitsToNat fpRest.1 * su.2 / 10 ^ fpRest.1.length
        match parseDurationLoop fuel cs4 with
        | some rest => some (v + rest)
        | none => none

/-- time.ParseDuration: optional sign, the special bare "0", then unit
terms; the result is nanoseconds. -/
def goParseDuration (s : String) : Option Int :=
  let cs := s.data
  let sd : Bool × List Char :=
    match cs with
    | '+' :: rest => (false, rest)
    | '-' :: rest => (true, rest)
    | _ => (false, cs)
  if sd.2 = ['0'] then some 0
  else if sd.2 = [] then none
  else
    match parseDurationLoop sd.2.length sd.2 with
    | some n => some (if sd.1 then -(n : Int) else (n : Int))
    | none => none

/-! ## Config binder (conftool/conftool.go) -/

/-- The reflect.Kind groups setField distinguishes; time.Duration is an
int64 kind in Go, covered by `int`. -/
inductive FieldKind where
  | str
  | int
  | uint
  | float
  | bool
  deriving Repr, DecidableEq

/-- A field's runtime value. -/
inductive GoValue where
  | vStr (s : String)
  | vInt (i : Int)
  | vUint (n : Nat)
  | vFloat (q : ℚ)
  | vBool (b : Bool)
  deriving Repr, DecidableEq

/-- The zero value of each kind. -/
def zeroValue : FieldKind → GoValue
  | .str => .vStr ""
  | .int => .vInt 0
  | .uint => .vUint 0
  | .float => .vFloat 0
  | .bool => .vBool false

/-- isFieldEmpty: comparison with the kind's zero value (the slice/map
cases of the source concern kinds setField cannot fill anyway). -/
def isFieldEmpty (k : FieldKind) (v : GoValue) : Bool :=
  decide (v = zeroValue k)

/-- setField: parse the default literal according to the field's kind; for
the integer kinds a syntax failure falls back to duration parsing; a value
that does not parse leaves the field unchanged. -/
def setFieldValue (k : FieldKind) (v : GoValue) (d : String) : GoValue :=
  match k with
  | .str => .vStr d
  | .int =>
    match goParseInt d with
    | .ok n => .vInt n
    | .error .syntaxErr =>
      match goParseDuration d with
      | some ns => .vInt ns
      | none => v
    | .error .rangeErr => v
  | .uint =>
    match goParseUint d with
    | .ok n => .vUint n
    | .error _ => v
  | .float =>
    match goParseFloat d with
    | some q => .vFloat q
    | none => v
  | .bool =>
    match goParseBool d with
    | some b => .vBool b
    | none => v

/-- Parsing a default literal into a field's type, the claim's notion of
"the parsed default literal according to its type". -/
def parseByKind (k : FieldKind) (d : String) : Option GoValue :=
  match k with
  | .str => some (.vStr d)
  | .int =>
    match goParseInt d with
    | .ok n => some (.vInt n)
    | .error .syntaxErr =>
      match goParseDuration d with
      | some ns => some (.vInt ns)
      | none => none
    | .error .rangeErr => none
  | .uint =>
    match goParseUint d with
    | .ok n => some (.vUint n)
    | .error _ => none
  | .float =>
    match goParseFloat d with
    | some q => some (.vFloat q)
    | none => none
  | .bool =>
    match goParseBool d with
    | some b => some (.vBool b)
    | none => none

/-- A configuration record field: a settable leaf with its kind, current
value, optional default tag and required tag, or a nested sub-record. -/
inductive CField where
  | leaf (kind : FieldKind) (value : GoValue) (dflt : Option String) (required : Bool)
  | strct (fields : List (String × CField))
  deriving Repr

/-- defsAndReqs: walk the record's fields in order; recurse into sub-records
flattening names as Parent.Field; skip non-empty leaves; fill empty leaves
that carry a default via setField; collect the names of empty required
leaves without a default.  Returns the collected names and the record after
the in-place mutations. -/
def defsAndReqsList : List (String × CField) → List String × List (String × CField)
  | [] => ([], [])
  | (name, .strct fs) :: rest =>
    let dive := defsAndReqsList fs
    let tail := defsAndReqsList rest
    (dive.1.map (fun d => name ++ "." ++ d) ++ tail.1, (name, .strct dive.2) :: tail.2)
  | (name, .leaf k v d r) :: rest =>
    let tail := defsAndReqsList rest
    if !isFieldEmpty k v then (tail.1, (name, .leaf k v d r) :: tail.2)
    else
      match d with
      | none => ((if r then [name] else []) ++ tail.1, (name, .leaf k v d r) :: tail.2)
      | some lit => (tail.1, (name, .leaf k (setFieldValue k v lit) d r) :: tail.2)

/-- DefaultsAndRequired: run the walk, and fail naming the missing required
parameters when any were collected. -/
def DefaultsAndRequired (cfg : List (String × CField)) :
    Except String (List (String × CField)) :=
  let res := defsAndReqsList cfg
  if res.1.length > 0 then
    .error ("required config parameters not set: " ++ String.intercalate ", " res.1)
  else .ok res.2

/-- The per-field effect of the walk, used to state its pointwise action. -/
def fieldOut : CField → CField
  | .strct fs => .strct (defsAndReqsList fs).2
  | .leaf k v d r =>
    if !isFieldEmpty k v then .leaf k v d r
    else
      match d with
      | none => .leaf k v d r
      | some lit => .leaf k (setFieldValue k v lit) d r

/-- Navigate a record along a path of field names. -/
def lookupPath : List (String × CField) → List String → Option CField
  | _, [] => none
  | fs, [n] => assocFind fs n
  | fs, n :: rest =>
    match assocFind fs n with
    | some (.strct gs) => lookupPath gs rest
    | _ => none

/-- A Go struct type has distinct field names at every nesting level. -/
def wfRecord : List (String × CField) → Bool
  | [] => true
  | (name, f) :: rest =>
    !(rest.any (fun p => p.1 = name)) &&
    (match f with
     | .strct gs => wfRecord gs
     | .leaf _ _ _ _ => true) &&
    wfRecord rest

/-- A path at which the record has an empty, required leaf without a
default — the claim's error condition. -/
def RequiredMissingAt (cfg : List (String × CField)) (p : List String) : Prop :=
  ∃ k v, lookupPath cfg p = some (.leaf k v none true) ∧ isFieldEmpty k v = true

/-! ## Environment substitution (conftool ParseEnvVars) -/

/-- The opening brace character, written by code point. -/
def lbrace : Char := Char.ofNat 123

/-- The closing brace character, written by code point. -/
def rbrace : Char := Char.ofNat 125

/-- A word character of RE2's ASCII \w class. -/
def isWordChar (c : Char) : Bool :=
  isDigitChar c || isAsciiLetter c || c = '_'

/-- Try to match the token pattern at the head of the buffer: two opening
braces, one or more word characters, two closing braces.  Returns the full
match and the identifier group. -/
def matchTokenAt (cs : List Char) : Option (List Char × List Char) :=
  match cs with
  | c1 :: c2 :: rest =>
    if c1 = lbrace ∧ c2 = lbrace then
      let w := rest.takeWhile isWordChar
      if w = [] then none
      else
        match rest.drop w.length with
        | d1 :: d2 :: _ =>
          if d1 = rbrace ∧ d2 = rbrace then
            some (lbrace :: lbrace :: (w ++ [rbrace, rbrace]), w)
          else none
        | _ => none
    else none
  | _ => none

/-- regexp.FindSubmatch for the token pattern: the leftmost match.  With
this pattern a match at a position exists exactly when the maximal word run
after the braces is nonempty and followed by two closing braces, so a
left-to-right scan finds the same match the regexp engine does. -/
def findToken : List Char → Option (List Char × List Char)
  | [] => none
  | c :: rest =>
    match matchTokenAt (c :: rest) with
    | some m => some m
    | none => findToken rest

/-- Scanner of bytes.ReplaceAll: at each position, when the pattern is a
nonempty prefix emit the replacement and skip it, otherwise keep the
character.  The fuel is the input length, one unit per character consumed,
so it never runs out when started at the input's length (the matched token
is always at least five characters, so the empty-pattern behaviour of the
Go function is never exercised). -/
def replaceAllFuel (pat repl : List Char) : Nat → List Char → List Char
  | _, [] => []
  | 0, s => s
  | f + 1, c :: rest =>
    if pat ≠ [] ∧ pat.isPrefixOf (c :: rest) then
      repl ++ replaceAllFuel pat repl f ((c :: rest).drop pat.length)
    else
      c :: replaceAllFuel pat repl f rest

/-- bytes.ReplaceAll(s, pat, repl). -/
def replaceAll (s pat repl : List Char) : List Char :=
  replaceAllFuel pat repl s.length s

/-- strings.ToUpper on one character; the identifier class \w is ASCII, so
only ASCII letters are mapped. -/
def toUpperChar (c : Char) : Char :=
  if 'a' ≤ c ∧ c ≤ 'z' then Char.ofNat (c.toNat - 32) else c

/-- strings.ToUpper on a character list. -/
def toUpperList (cs : List Char) : List Char :=
  cs.map toUpperChar

/-- ParseEnvVars' rewrite loop with explicit fuel: find the leftmost token,
replace every occurrence of it with the value of the environment variable
named by the upper-cased identifier, and repeat until no token remains; the
environment is total, an unset variable reads as the empty string, exactly
os.Getenv's behaviour. -/
def parseEnvVarsGas : Nat → (String → String) → List Char → Option (List Char)
  | 0, _, _ => none
  | g + 1, env, buf =>
    match findToken buf with
    | none => some buf
    | some ti =>
      parseEnvVarsGas g env (replaceAll buf ti.1 (env (String.mk (toUpperList ti.2))).data)

/-- Divergence of the rewrite loop: no amount of fuel reaches a fixed
point. -/
def parseEnvVarsDiverges (env : String → String) (buf : List Char) : Prop :=
  ∀ g, parseEnvVarsGas g env buf = none

/-! ## Helper lemmas -/

theorem assocFind_assocSet {α : Type} (l : List (String × α)) (k : String) (v : α) (n : String) :
    assocFind (assocSet l k v) n = if n = k then some v else assocFind l n := by
  induction l with
  | nil =>
    simp only [assocSet, assocFind]
    rcases eq_or_ne k n with h | h
    · simp [h]
    · simp [h, Ne.symm h]
  | cons hd tl ih =>
    obtain ⟨k2, v2⟩ := hd
    simp only [assocSet]
    by_cases hk : k2 = k
    · subst hk
      simp only [if_pos rfl, assocFind]
      rcases eq_or_ne k2 n with h | h
      · simp [h]
      · simp [h, Ne.symm h]
    · simp only [if_neg hk, assocFind]
      rcases eq_or_ne k2 n with h | h
      · subst h
        simp [hk]
      · simp [h, ih]

theorem assocFind_eq_none_of_not_mem {α : Type} (l : List (String × α)) (k : String)
    (h : k ∉ l.map Prod.fst) : assocFind l k = none := by
  induction l with
  | nil => rfl
  | cons hd tl ih =>
    obtain ⟨k2, v2⟩ := hd
    simp only [List.map_cons, List.mem_cons] at h
    push_neg at h
    have hk : ¬ k2 = k := fun hh => h.1 hh.symm
    simp [assocFind, hk, ih h.2]

theorem mem_keys_assocSet {α : Type} (l : List (String × α)) (k : String) (v : α)
    (x : String) (hx : x ∈ (assocSet l k v).map Prod.fst) :
    x = k ∨ x ∈ l.map Prod.fst := by
  induction l with
  | nil => simpa [assocSet] using hx
  | cons hd tl ih =>
    obtain ⟨k2, v2⟩ := hd
    simp only [assocSet] at hx
    by_cases hk : k2 = k
    · simp only [if_pos hk, List.map_cons, List.mem_cons] at hx
      rcases hx with hx | hx
      · exact Or.inl hx
      · exact Or.inr (List.mem_cons_of_mem _ hx)
    · simp only [if_neg hk, List.map_cons, List.mem_cons] at hx
      rcases hx with hx | hx
      · exact Or.inr (by simp [hx])
      · rcases ih hx with h | h
        · exact Or.inl h
        · exact Or.inr (List.mem_cons_of_mem _ h)

theorem nodup_keys_assocSet {α : Type} (l : List (String × α)) (k : String) (v : α)
    (h : (l.map Prod.fst).Nodup) : ((assocSet l k v).map Prod.fst).Nodup := by
  induction l with
  | nil => simp [assocSet]
  | cons hd tl ih =>
    obtain ⟨k2, v2⟩ := hd
    simp only [List.map_cons, List.nodup_cons] at h
    by_cases hk : k2 = k
    · subst hk
      have heq : assocSet ((k2, v2) :: tl) k2 v = (k2, v) :: tl := by
        simp [assocSet]
      rw [heq]
      simp only [List.map_cons, List.nodup_cons]
      exact ⟨h.1, h.2⟩
    · simp only [assocSet, if_neg hk, List.map_cons, List.nodup_cons]
      refine ⟨?_, ih h.2⟩
      intro hmem
      rcases mem_keys_assocSet tl k v k2 hmem with h1 | h1
      · exact hk h1
      · exact h.1 h1

theorem statusStep_find (s : StatusState) (op : StatusOp) (n : String) :
    assocFind (statusStep s op).ready n = flagStep n (assocFind s.ready n) op := by
  cases op with
  | register m =>
    simp only [statusStep, GetServiceReporter]
    by_cases hm : (assocFind s.ready m).isSome
    · simp only [if_pos hm]
      by_cases hmn : m = n
      · subst hmn
        rcases hacc : assocFind s.ready m with _ | b
        · rw [hacc] at hm; simp at hm
        · simp [flagStep, hacc]
      · simp [flagStep, hmn]
    · simp only [Bool.not_eq_true] at hm
      have hm2 : assocFind s.ready m = none := by
        rcases hacc : assocFind s.ready m with _ | b
        · rfl
        · rw [hacc] at hm; simp at hm
      simp only [hm2, Option.isSome_none, Bool.false_eq_true, if_false]
      show assocFind (assocSet s.ready m false) n = _
      rw [assocFind_assocSet]
      by_cases hmn : m = n
      · subst hmn
        simp [flagStep, hm2]
      · have hnm : ¬ n = m := fun hh => hmn hh.symm
        simp [flagStep, hmn, hnm]
  | ready m =>
    simp only [statusStep, reporterReady, flagStep]
    rw [assocFind_assocSet]
    by_cases hmn : m = n
    · subst hmn; simp
    · have hnm : ¬ n = m := fun hh => hmn hh.symm
      simp [hmn, hnm]
  | notReady m =>
    simp only [statusStep, reporterNotReady, flagStep]
    rw [assocFind_assocSet]
    by_cases hmn : m = n
    · subst hmn; simp
    · have hnm : ¬ n = m := fun hh => hmn hh.symm
      simp [hmn, hnm]

theorem exec_find (ops : List StatusOp) (s : StatusState) (n : String) :
    assocFind ((ops.foldl statusStep s).ready) n = ops.foldl (flagStep n) (assocFind s.ready n) := by
  induction ops generalizing s with
  | nil => rfl
  | cons op rest ih =>
    simp only [List.foldl_cons]
    rw [ih, statusStep_find]

theorem statusStep_nodup (s : StatusState) (op : StatusOp)
    (h : (s.ready.map Prod.fst).Nodup) :
    (((statusStep s op).ready).map Prod.fst).Nodup := by
  cases op with
  | register m =>
    simp only [statusStep, GetServiceReporter]
    by_cases hm : (assocFind s.ready m).isSome
    · simpa [hm] using h
    · simp only [Bool.not_eq_true] at hm
      simp only [hm, Bool.false_eq_true, if_false]
      exact nodup_keys_assocSet _ _ _ h
  | ready m => exact nodup_keys_assocSet _ _ _ h
  | notReady m => exact nodup_keys_assocSet _ _ _ h

theorem exec_nodup (ops : List StatusOp) (s : StatusState)
    (h : (s.ready.map Prod.fst).Nodup) :
    (((ops.foldl statusStep s).ready).map Prod.fst).Nodup := by
  induction ops generalizing s with
  | nil => exact h
  | cons op rest ih =>
    simp only [List.foldl_cons]
    exact ih _ (statusStep_nodup _ _ h)

theorem all_snd_iff_find (l : List (String × Bool)) (hnd : (l.map Prod.fst).Nodup) :
    (l.all fun p => p.2) = true ↔ ∀ n b, assocFind l n = some b → b = true := by
  induction l with
  | nil =>
    simp [assocFind]
  | cons hd tl ih =>
    obtain ⟨k2, v2⟩ := hd
    simp only [List.map_cons, List.nodup_cons] at hnd
    simp only [List.all_cons, Bool.and_eq_true]
    rw [ih hnd.2]
    constructor
    · rintro ⟨h1, h2⟩ n b hf
      simp only [assocFind] at hf
      by_cases hk : k2 = n
      · rw [if_pos hk] at hf
        cases hf
        exact h1
      · rw [if_neg hk] at hf
        exact h2 n b hf
    · intro h
      refine ⟨h k2 v2 (by simp [assocFind]), ?_⟩
      intro n b hf
      refine h n b ?_
      simp only [assocFind]
      by_cases hk : k2 = n
      · subst hk
        rw [assocFind_eq_none_of_not_mem tl k2 hnd.1] at hf
        cases hf
      · rw [if_neg hk]
        exact hf

theorem wf_flag_rep (ops : List StatusOp) :
    ∀ (regd : List String) (n : String) (acc racc : Option Bool),
    wfFrom regd ops →
    (acc = none ↔ n ∉ regd) →
    (n ∈ regd → acc = some (racc.getD false)) →
    (n ∉ regd → racc = none) →
    ((ops.foldl (flagStep n) acc = none ↔ ¬ (n ∈ regd ∨ registersName ops n))
     ∧ ((n ∈ regd ∨ registersName ops n) →
        ops.foldl (flagStep n) acc = some ((ops.foldl (repStep n) racc).getD false))) := by
  induction ops with
  | nil =>
    intro regd n acc racc _ h1 h2 _
    constructor
    · simpa [registersName] using h1
    · intro hr
      rcases hr with hr | hr
      · exact h2 hr
      · simp [registersName] at hr
  | cons op rest ih =>
    intro regd n acc racc hwf h1 h2 h3
    cases op with
    | register m =>
      have hwrest : wfFrom (m :: regd) rest := by simpa [wfFrom] using hwf
      have inv1 : flagStep n acc (.register m) = none ↔ n ∉ (m :: regd) := by
        by_cases hmn : m = n
        · rcases hacc : acc with _ | b <;> simp [flagStep, hmn, hacc]
        · have hnm : n ≠ m := fun hh => hmn hh.symm
          simp only [flagStep, if_neg hmn]
          rw [h1]
          simp [List.mem_cons, hnm]
      have inv2 : n ∈ m :: regd → flagStep n acc (.register m) = some (racc.getD false) := by
        intro hmem
        by_cases hmn : m = n
        · by_cases hnr : n ∈ regd
          · have hane : ¬ acc = none := by rw [h1]; simpa using hnr
            rcases hacc : acc with _ | b
            · exact absurd hacc hane
            · have hh := h2 hnr
              rw [hacc] at hh
              simp [flagStep, hmn, hacc, hh]
          · have hacc : acc = none := h1.mpr hnr
            have hracc : racc = none := h3 hnr
            simp [flagStep, hmn, hacc, hracc]
        · have hnreg : n ∈ regd := by
            rcases List.mem_cons.mp hmem with hh | hh
            · exact absurd hh.symm hmn
            · exact hh
          simp only [flagStep, if_neg hmn]
          exact h2 hnreg
      have inv3 : n ∉ m :: regd → racc = none :=
        fun hn => h3 (fun hh => hn (List.mem_cons_of_mem _ hh))
      have key := ih (m :: regd) n (flagStep n acc (.register m)) racc hwrest inv1 inv2 inv3
      have hset : (n ∈ m :: regd ∨ registersName rest n)
          ↔ (n ∈ regd ∨ registersName (StatusOp.register m :: rest) n) := by
        simp only [registersName, List.mem_cons, StatusOp.register.injEq]
        constructor
        · rintro ((hh | hh) | hh)
          · exact Or.inr (Or.inl hh)
          · exact Or.inl hh
          · exact Or.inr (Or.inr hh)
        · rintro (hh | hh | hh)
          · exact Or.inl (Or.inr hh)
          · exact Or.inl (Or.inl hh)
          · exact Or.inr hh
      constructor
      · simp only [List.foldl_cons]
        exact key.1.trans (not_congr hset)
      · intro hr
        simp only [List.foldl_cons, repStep]
        exact key.2 (hset.mpr hr)
    | ready m =>
      have hparts : m ∈ regd ∧ wfFrom regd rest := by simpa [wfFrom] using hwf
      have inv1 : flagStep n acc (.ready m) = none ↔ n ∉ regd := by
        by_cases hmn : m = n
        · subst hmn
          simp only [flagStep, if_pos rfl]
          constructor
          · intro hh; cases hh
          · intro hh; exact absurd hparts.1 hh
        · simpa [flagStep, hmn] using h1
      have inv2 : n ∈ regd → flagStep n acc (.ready m) = some ((repStep n racc (.ready m)).getD false) := by
        intro hnr
        by_cases hmn : m = n
        · subst hmn; simp [flagStep, repStep]
        · simp only [flagStep, repStep, if_neg hmn]
          exact h2 hnr
      have inv3 : n ∉ regd → repStep n racc (.ready m) = none := by
        intro hnr
        by_cases hmn : m = n
        · subst hmn; exact absurd hparts.1 hnr
        · simp only [repStep, if_neg hmn]
          exact h3 hnr
      have key := ih regd n (flagStep n acc (.ready m)) (repStep n racc (.ready m))
        hparts.2 inv1 inv2 inv3
      have hset : registersName (StatusOp.ready m :: rest) n ↔ registersName rest n := by
        simp [registersName]
      constructor
      · simp only [List.foldl_cons]
        rw [key.1, hset]
      · intro hr
        simp only [List.foldl_cons]
        exact key.2 (by rw [hset] at hr; exact hr)
    | notReady m =>
      have hparts : m ∈ regd ∧ wfFrom regd rest := by simpa [wfFrom] using hwf
      have inv1 : flagStep n acc (.notReady m) = none ↔ n ∉ regd := by
        by_cases hmn : m = n
        · subst hmn
          simp only [flagStep, if_pos rfl]
          constructor
          · intro hh; cases hh
          · intro hh; exact absurd hparts.1 hh
        · simpa [flagStep, hmn] using h1
      have inv2 : n ∈ regd → flagStep n acc (.notReady m) = some ((repStep n racc (.notReady m)).getD false) := by
        intro hnr
        by_cases hmn : m = n
        · subst hmn; simp [flagStep, repStep]
        · simp only [flagStep, repStep, if_neg hmn]
          exact h2 hnr
      have inv3 : n ∉ regd → repStep n racc (.notReady m) = none := by
        intro hnr
        by_cases hmn : m = n
        · subst hmn; exact absurd hparts.1 hnr
        · simp only [repStep, if_neg hmn]
          exact h3 hnr
      have key := ih regd n (flagStep n acc (.notReady m)) (repStep n racc (.notReady m))
        hparts.2 inv1 inv2 inv3
      have hset : registersName (StatusOp.notReady m :: rest) n ↔ registersName rest n := by
        simp [registersName]
      constructor
      · simp only [List.foldl_cons]
        rw [key.1, hset]
      · intro hr
        simp only [List.foldl_cons]
        exact key.2 (by rw [hset] at hr; exact hr)

theorem flagAfter_characterisation (ops : List StatusOp) (n : String) (hwf : wfOps ops) :
    (flagAfter ops n = none ↔ ¬ registersName ops n)
    ∧ (registersName ops n → flagAfter ops n = some ((lastReport ops n).getD false)) := by
  have key := wf_flag_rep ops [] n none none hwf (by simp) (by simp) (fun _ => rfl)
  simp only [List.not_mem_nil, false_or] at key
  exact ⟨key.1, key.2⟩

theorem lookupPath_nil_fields (p : List String) :
    lookupPath ([] : List (String × CField)) p = none := by
  cases p with
  | nil => rfl
  | cons n rest =>
    cases rest with
    | nil => rfl
    | cons a b => rfl

theorem setFieldValue_eq_of_parse (k : FieldKind) (v : GoValue) (lit : String)
    (w : GoValue) (h : parseByKind k lit = some w) : setFieldValue k v lit = w := by
  cases k with
  | str =>
    simp only [parseByKind, Option.some.injEq] at h
    simp [setFieldValue, h]
  | int =>
    simp only [parseByKind] at h
    cases hpi : goParseInt lit with
    | ok n2 =>
      rw [hpi] at h
      simp only [Option.some.injEq] at h
      simp [setFieldValue, hpi, h]
    | error err =>
      rw [hpi] at h
      cases err with
      | syntaxErr =>
        cases hpd : goParseDuration lit with
        | none =>
          rw [hpd] at h
          cases h
        | some ns =>
          rw [hpd] at h
          simp only [Option.some.injEq] at h
          simp [setFieldValue, hpi, hpd, h]
      | rangeErr => cases h
  | uint =>
    simp only [parseByKind] at h
    cases hpu : goParseUint lit with
    | ok n2 =>
      rw [hpu] at h
      simp only [Option.some.injEq] at h
      simp [setFieldValue, hpu, h]
    | error err =>
      rw [hpu] at h
      cases h
  | float =>
    simp only [parseByKind] at h
    cases hpf : goParseFloat lit with
    | none =>
      rw [hpf] at h
      cases h
    | some q =>
      rw [hpf] at h
      simp only [Option.some.injEq] at h
      simp [setFieldValue, hpf, h]
  | bool =>
    simp only [parseByKind] at h
    cases hpb : goParseBool lit with
    | none =>
      rw [hpb] at h
      cases h
    | some b =>
      rw [hpb] at h
      simp only [Option.some.injEq] at h
      simp [setFieldValue, hpb, h]

theorem assocFind_defsAndReqsList (fs : List (String × CField)) (n : String) :
    assocFind (defsAndReqsList fs).2 n = (assocFind fs n).map fieldOut := by
  induction fs with
  | nil => simp [defsAndReqsList, assocFind]
  | cons hd tl ih =>
    obtain ⟨name, f⟩ := hd
    cases f with
    | strct gs =>
      simp only [defsAndReqsList, assocFind]
      by_cases hn : name = n
      · simp [hn, fieldOut]
      · simp [hn, ih]
    | leaf k v d r =>
      cases d with
      | none =>
        by_cases he : isFieldEmpty k v
        · simp only [defsAndReqsList, he, Bool.not_true, Bool.false_eq_true, if_false,
            assocFind]
          by_cases hn : name = n
          · simp [hn, fieldOut, he]
          · simp [hn, ih]
        · have he2 : isFieldEmpty k v = false := by simpa using he
          simp only [defsAndReqsList, he2, Bool.not_false, if_true, assocFind]
          by_cases hn : name = n
          · simp [hn, fieldOut, he2]
          · simp [hn, ih]
      | some lit =>
        by_cases he : isFieldEmpty k v
        · simp only [defsAndReqsList, he, Bool.not_true, Bool.false_eq_true, if_false,
            assocFind]
          by_cases hn : name = n
          · simp [hn, fieldOut, he]
          · simp [hn, ih]
        · have he2 : isFieldEmpty k v = false := by simpa using he
          simp only [defsAndReqsList, he2, Bool.not_false, if_true, assocFind]
          by_cases hn : name = n
          · simp [hn, fieldOut, he2]
          · simp [hn, ih]

theorem lookupPath_defsAndReqsList (fs : List (String × CField)) (p : List String) :
    lookupPath (defsAndReqsList fs).2 p = (lookupPath fs p).map fieldOut := by
  induction p generalizing fs with
  | nil => rfl
  | cons n rest ih =>
    cases rest with
    | nil =>
      simp only [lookupPath]
      exact assocFind_defsAndReqsList fs n
    | cons n2 rest2 =>
      simp only [lookupPath]
      rw [assocFind_defsAndReqsList]
      cases hf : assocFind fs n with
      | none => rfl
      | some f =>
        cases f with
        | strct gs =>
          simp only [Option.map_some, fieldOut]
          exact ih gs
        | leaf k v d r =>
          simp only [Option.map_some]
          cases d <;> by_cases he : isFieldEmpty k v <;> simp [fieldOut, he]

theorem missing_cons_strct (name : String) (gs tl : List (String × CField)) (p : List String) :
    RequiredMissingAt ((name, .strct gs) :: tl) p ↔
      (∃ rest, p = name :: rest ∧ RequiredMissingAt gs rest)
      ∨ (p.head? ≠ some name ∧ RequiredMissingAt tl p) := by
  cases p with
  | nil =>
    simp [RequiredMissingAt, lookupPath]
  | cons n rest =>
    by_cases hn : n = name
    · subst hn
      cases rest with
      | nil =>
        simp [RequiredMissingAt, lookupPath, assocFind]
      | cons n2 rest2 =>
        simp [RequiredMissingAt, lookupPath, assocFind]
    · have hname : ¬ name = n := fun hh => hn hh.symm
      cases rest with
      | nil =>
        simp [RequiredMissingAt, lookupPath, assocFind, hn, hname]
      | cons n2 rest2 =>
        simp [RequiredMissingAt, lookupPath, assocFind, hn, hname]

theorem missing_cons_leaf (name : String) (k : FieldKind) (v : GoValue) (d : Option String)
    (r : Bool) (tl : List (String × CField)) (p : List String) :
    RequiredMissingAt ((name, .leaf k v d r) :: tl) p ↔
      (p = [name] ∧ d = none ∧ r = true ∧ isFieldEmpty k v = true)
      ∨ (p.head? ≠ some name ∧ RequiredMissingAt tl p) := by
  cases p with
  | nil =>
    simp [RequiredMissingAt, lookupPath]
  | cons n rest =>
    by_cases hn : n = name
    · subst hn
      cases rest with
      | nil =>
        simp only [RequiredMissingAt, lookupPath, assocFind, if_pos rfl, List.head?_cons,
          ne_eq, not_true_eq_false, false_and, or_false]
        constructor
        · rintro ⟨k2, v2, hleaf, hemp⟩
          injection hleaf with hleaf
          cases hleaf
          exact ⟨trivial, rfl, rfl, hemp⟩
        · rintro ⟨-, hd, hr, hemp⟩
          subst hd
          subst hr
          exact ⟨k, v, rfl, hemp⟩
      | cons n2 rest2 =>
        simp [RequiredMissingAt, lookupPath, assocFind]
    · have hname : ¬ name = n := fun hh => hn hh.symm
      cases rest with
      | nil =>
        simp [RequiredMissingAt, lookupPath, assocFind, hn, hname]
      | cons n2 rest2 =>
        simp [RequiredMissingAt, lookupPath, assocFind, hn, hname]

theorem head_ne_of_missing_tl (tl : List (String × CField)) (name : String)
    (hfindtl : assocFind tl name = none) (p : List String)
    (hmtl : RequiredMissingAt tl p) : p.head? ≠ some name := by
  intro hh
  cases p with
  | nil => cases hh
  | cons n rest =>
    simp only [List.head?_cons, Option.some.injEq] at hh
    subst hh
    obtain ⟨k2, v2, hlp, -⟩ := hmtl
    cases rest with
    | nil =>
      simp only [lookupPath, hfindtl] at hlp
      cases hlp
    | cons a b =>
      simp only [lookupPath, hfindtl] at hlp
      cases hlp

theorem reqs_empty_iff_sized (N : Nat) :
    ∀ (fs : List (String × CField)), sizeOf fs ≤ N → wfRecord fs = true →
      ((defsAndReqsList fs).1 = [] ↔ ∀ p, ¬ RequiredMissingAt fs p) := by
  induction N with
  | zero =>
    intro fs hsz _
    exfalso
    have hpos : 0 < sizeOf fs := by
      cases fs <;> simp_arith
    omega
  | succ N ihN =>
    intro fs hsz hwf
    cases fs with
    | nil =>
      constructor
      · intro _ p
        simp [RequiredMissingAt, lookupPath_nil_fields]
      · intro _
        simp [defsAndReqsList]
    | cons hd tl =>
      obtain ⟨name, f⟩ := hd
      cases f with
      | strct gs =>
        have hszgs : sizeOf gs ≤ N := by
          simp only [List.cons.sizeOf_spec, Prod.mk.sizeOf_spec, CField.strct.sizeOf_spec] at hsz
          omega
        have hsztl : sizeOf tl ≤ N := by
          simp only [List.cons.sizeOf_spec, Prod.mk.sizeOf_spec, CField.strct.sizeOf_spec] at hsz
          omega
        have hparts : ((!tl.any fun p => p.1 = name) = true ∧ wfRecord gs = true)
            ∧ wfRecord tl = true := by
          simpa only [wfRecord, Bool.and_eq_true] using hwf
        obtain ⟨⟨hany, hwfgs⟩, hwtl⟩ := hparts
        have hfindtl : assocFind tl name = none := by
          apply assocFind_eq_none_of_not_mem
          intro hmem
          obtain ⟨x, hx, hx1⟩ := List.mem_map.mp hmem
          simp only [Bool.not_eq_true', List.any_eq_false, decide_eq_true_eq] at hany
          exact hany x hx hx1
        have IHgs := ihN gs hszgs hwfgs
        have IHtl := ihN tl hsztl hwtl
        constructor
        · intro hnil p hmiss
          simp only [defsAndReqsList, List.append_eq_nil, List.map_eq_nil_iff] at hnil
          obtain ⟨hgsnil, htlnil⟩ := hnil
          rw [missing_cons_strct] at hmiss
          rcases hmiss with ⟨rest, -, hmgs⟩ | ⟨-, hmtl⟩
          · exact (IHgs.mp hgsnil rest) hmgs
          · exact (IHtl.mp htlnil p) hmtl
        · intro hall
          simp only [defsAndReqsList, List.append_eq_nil, List.map_eq_nil_iff]
          refine ⟨IHgs.mpr ?_, IHtl.mpr ?_⟩
          · intro rest hmgs
            exact hall (name :: rest)
              ((missing_cons_strct name gs tl (name :: rest)).mpr (Or.inl ⟨rest, rfl, hmgs⟩))
          · intro p hmtl
            exact hall p ((missing_cons_strct name gs tl p).mpr
              (Or.inr ⟨head_ne_of_missing_tl tl name hfindtl p hmtl, hmtl⟩))
      | leaf k v d r =>
        have hsztl : sizeOf tl ≤ N := by
          simp only [List.cons.sizeOf_spec, Prod.mk.sizeOf_spec, CField.leaf.sizeOf_spec] at hsz
          omega
        have hparts : (!tl.any fun p => p.1 = name) = true ∧ wfRecord tl = true := by
          simpa only [wfRecord, Bool.and_eq_true, and_true] using hwf
        obtain ⟨hany, hwtl⟩ := hparts
        have hfindtl : assocFind tl name = none := by
          apply assocFind_eq_none_of_not_mem
          intro hmem
          obtain ⟨x, hx, hx1⟩ := List.mem_map.mp hmem
          simp only [Bool.not_eq_true', List.any_eq_false, decide_eq_true_eq] at hany
          exact hany x hx hx1
        have IHtl := ihN tl hsztl hwtl
        by_cases he : isFieldEmpty k v
        · cases d with
          | none =>
            by_cases hr : r = true
            · constructor
              · intro hnil
                exfalso
                simp [defsAndReqsList, he, hr] at hnil
              · intro hall
                exfalso
                exact hall [name]
                  ((missing_cons_leaf name k v none r tl [name]).mpr
                    (Or.inl ⟨rfl, rfl, hr, he⟩))
            · have hrf : r = false := by simpa using hr
              have hreq : (defsAndReqsList ((name, CField.leaf k v none r) :: tl)).1 =
                  (defsAndReqsList tl).1 := by
                simp [defsAndReqsList, he, hrf]
              rw [hreq, IHtl]
              constructor
              · intro hall p hmiss
                rw [missing_cons_leaf] at hmiss
                rcases hmiss with ⟨-, -, hrt, -⟩ | ⟨-, hmtl⟩
                · rw [hrf] at hrt; cases hrt
                · exact (hall p) hmtl
              · intro hall p hmtl
                exact hall p ((missing_cons_leaf name k v none r tl p).mpr
                  (Or.inr ⟨head_ne_of_missing_tl tl name hfindtl p hmtl, hmtl⟩))
          | some lit =>
            have hreq : (defsAndReqsList ((name, CField.leaf k v (some lit) r) :: tl)).1 =
                (defsAndReqsList tl).1 := by
              simp [defsAndReqsList, he]
            rw [hreq, IHtl]
            constructor
            · intro hall p hmiss
              rw [missing_cons_leaf] at hmiss
              rcases hmiss with ⟨-, hd2, -, -⟩ | ⟨-, hmtl⟩
              · cases hd2
              · exact (hall p) hmtl
            · intro hall p hmtl
              exact hall p ((missing_cons_leaf name k v (some lit) r tl p).mpr
                (Or.inr ⟨head_ne_of_missing_tl tl name hfindtl p hmtl, hmtl⟩))
        · have he2 : isFieldEmpty k v = false := by simpa using he
          have hreq : (defsAndReqsList ((name, CField.leaf k v d r) :: tl)).1 =
              (defsAndReqsList tl).1 := by
            cases d <;> simp [defsAndReqsList, he2]
          rw [hreq, IHtl]
          constructor
          · intro hall p hmiss
            rw [missing_cons_leaf] at hmiss
            rcases hmiss with ⟨-, -, -, het⟩ | ⟨-, hmtl⟩
            · rw [he2] at het; cases het
            · exact (hall p) hmtl
          · intro hall p hmtl
            exact hall p ((missing_cons_leaf name k v d r tl p).mpr
              (Or.inr ⟨head_ne_of_missing_tl tl name hfindtl p hmtl, hmtl⟩))

theorem reqs_empty_iff (fs : List (String × CField)) (hwf : wfRecord fs = true) :
    (defsAndReqsList fs).1 = [] ↔ ∀ p, ¬ RequiredMissingAt fs p :=
  reqs_empty_iff_sized (sizeOf fs) fs le_rfl hwf

theorem floatExpAux_done (fuel : Nat) (q : ℚ) (e : ℤ) (h1 : ¬ q < 1) (h2 : ¬ 2 ≤ q) :
    floatExpAux fuel q e = e := by
  unfold floatExpAux
  split_ifs <;> rfl

theorem floatExpAux_step_div (fuel : Nat) (q : ℚ) (e : ℤ) (h0 : fuel ≠ 0)
    (h1 : ¬ q < 1) (h2 : 2 ≤ q) :
    floatExpAux fuel q e = floatExpAux (fuel - 1) (q / 2) (e + 1) := by
  conv_lhs => rw [floatExpAux.eq_def]
  simp [h0, h1, h2]

/-! ## Claim theorems -/

/-- C1: the claim says RegisterService rejects every name not matching
[A-Za-z][A-Za-z_]* as a whole, naming "1bad", "" and "has-dash".  The code
calls MatchString on an unanchored pattern, which searches for a match
anywhere in the name, so "1bad" and "has-dash" are accepted and stored;
only names with no ASCII letter at all (such as "") are rejected. -/
theorem register_service_unanchored_name :
    RegisterService [] "1bad" = .ok [("1bad", ())]
    ∧ RegisterService [] "has-dash" = .ok [("has-dash", ())]
    ∧ RegisterService [] "" =
        .error "service name must match the unquoted yaml key format (e.g. [a-zA-Z_]+)" := by
  refine ⟨?_, ?_, ?_⟩ <;> rfl

/-- C2: the claim says the panic middleware writes a 500 JSON body carrying
the panic message and then re-raises the panic.  On a panic with the plain
string "boom" the type assertion e.(error) yields a nil error, so the body
is the formatting of a nil error, and the deferred recover never re-raises:
the sentry handler upstream does not observe the panic. -/
theorem panic_middleware_on_string_boom :
    (panicLoggerMiddleware "rid-1" (.panicked (.goString "boom") [])).written =
      [{ code := 500, contentType := "application/json", contentLength := some 22,
         body := "\x7b\"error\":\"%!s(<nil>)\"\x7d" }]
    ∧ (panicLoggerMiddleware "rid-1" (.panicked (.goString "boom") [])).repanic = none
    ∧ (panicLoggerMiddleware "rid-1" (.panicked (.goString "boom") [])).logs =
      [{ level := "error", msg := "PANIC", fields := [("rid", "rid-1"), ("stack", "<stack>")] }] := by
  refine ⟨?_, ?_, ?_⟩ <;> rfl

/-- C3 counterexample: the rate limiter's refusal is written with net/http's
Error, a plain-text response, not the JSON envelope the claim describes. -/
theorem rate_limit_refusal_not_json :
    (rateLimiterMiddleware { limit := 10, burst := 12, tokens := 0 }).1 =
      .refused (goHttpError 429)
    ∧ (goHttpError 429).contentType ≠ "application/json"
    ∧ (goHttpError 429).body = "Too Many Requests\n" := by
  refine ⟨?_, ?_, ?_⟩
  · rfl
  · decide
  · rfl

/-- C3 amended: responses written through httpreply.Error — the panic
capture 500 and the handler-error body written by instrumentation — have
Content-Type application/json, a body of the form
\x7b"error": "<message>"\x7d, and Content-Length equal to the body length;
the connection-cap 429, the rate-limit 429 and the authentication 401 are
written with net/http's Error as plain text carrying the status text. -/
theorem middleware_error_response_formats :
    (∀ msg code, (httpreplyError (some msg) code).contentType = "application/json"
      ∧ (httpreplyError (some msg) code).body = "\x7b\"error\":\"" ++ msg ++ "\"\x7d"
      ∧ (httpreplyError (some msg) code).contentLength =
          some (httpreplyError (some msg) code).body.length)
    ∧ (∀ reqID v ws, (panicLoggerMiddleware reqID (.panicked v ws)).written =
        ws ++ [httpreplyError (panicAsError v) 500])
    ∧ (∀ code msg m s e r,
        (instrumentationMiddleware (fun _ => (code, some msg)) m s e r).2 =
          some (httpreplyError (some msg) code))
    ∧ (∀ n lim, n ≥ lim → connLimiterMiddleware n lim = .refused (goHttpError 429))
    ∧ (∀ l, ¬ (1 : ℚ) ≤ l.tokens → (rateLimiterMiddleware l).1 = .refused (goHttpError 429))
    ∧ (∀ a r, tokenAuthorized a r ≠ none → authMiddleware (some a) r = .refused (goHttpError 401))
    ∧ (goHttpError 429).contentType = "text/plain; charset=utf-8"
    ∧ (goHttpError 429).body = "Too Many Requests\n"
    ∧ (goHttpError 401).contentType = "text/plain; charset=utf-8"
    ∧ (goHttpError 401).body = "Unauthorized\n" := by
  refine ⟨?_, ?_, ?_, ?_, ?_, ?_, rfl, rfl, rfl, rfl⟩
  · intro msg code
    refine ⟨rfl, rfl, ?_⟩
    simp only [httpreplyError, httpreplyReply, goSprintfErr]
    rw [if_pos]
    rw [String.length_append, String.length_append]
    have h1 : ("\x7b\"error\":\"" : String).length = 10 := rfl
    have h2 : ("\"\x7d" : String).length = 2 := rfl
    omega
  · intro reqID v ws
    rfl
  · intro code msg m s e r
    rfl
  · intro n lim h
    simp [connLimiterMiddleware, h]
  · intro l h
    simp [rateLimiterMiddleware, limiterAllow, h]
  · intro a r h
    simp only [authMiddleware]
    cases hr : tokenAuthorized a r with
    | none => exact absurd hr h
    | some e => rfl

/-- C3 amended witness: the contract evaluated at concrete inputs. -/
theorem middleware_error_response_formats_witness :
    ((3 : Int) ≥ (3 : Int) ∧ connLimiterMiddleware 3 3 = .refused (goHttpError 429))
    ∧ (¬ (1 : ℚ) ≤ (0 : ℚ)
       ∧ (rateLimiterMiddleware { limit := 10, burst := 12, tokens := 0 }).1 =
           .refused (goHttpError 429))
    ∧ (tokenAuthorized { secret := "s" } { headers := [], remoteAddr := "" } ≠ none
       ∧ authMiddleware (some { secret := "s" }) { headers := [], remoteAddr := "" } =
           .refused (goHttpError 401)) := by
  refine ⟨⟨by decide, ?_⟩, ⟨by norm_num, ?_⟩, ⟨by decide, ?_⟩⟩
  · exact middleware_error_response_formats.2.2.2.1 3 3 (by decide)
  · exact middleware_error_response_formats.2.2.2.2.1 _ (by norm_num)
  · exact middleware_error_response_formats.2.2.2.2.2.1 _ _ (by decide)

/-- C4 counterexample: after the worker group returns, the orchestrator
marks only the "app" reporter not-ready; a registered service that had
reported ready keeps its true flag through the shutdown tail. -/
theorem shutdown_leaves_service_ready_flag :
    assocFind (runEverythingFinish
        { alive := true, ready := [("app", true), ("svc", true)] } 7 none).1.ready "svc" =
      some true := by
  rfl

/-- C4 amended: after the worker group of Run terminates, the orchestrator
marks its own "app" reporter not-ready — the flags of the registered
services are left as last reported — and then sleeps for the configured
shutdown_delay before returning. -/
theorem shutdown_marks_only_app_not_ready (s : StatusState) (d : Nat) (e : Option String) :
    assocFind (runEverythingFinish s d e).1.ready "app" = some false
    ∧ (∀ n, n ≠ "app" → assocFind (runEverythingFinish s d e).1.ready n = assocFind s.ready n)
    ∧ (runEverythingFinish s d e).2.1 = d := by
  refine ⟨?_, ?_, rfl⟩
  · simp [runEverythingFinish, reporterNotReady, assocFind_assocSet]
  · intro n hn
    simp [runEverythingFinish, reporterNotReady, assocFind_assocSet, hn]

/-- C4 amended witness: evaluated on a two-service state. -/
theorem shutdown_marks_only_app_not_ready_witness :
    assocFind (runEverythingFinish
        { alive := true, ready := [("app", true), ("svc", true)] } 7 none).1.ready "app" =
      some false
    ∧ assocFind (runEverythingFinish
        { alive := true, ready := [("app", true), ("svc", true)] } 7 none).1.ready "svc" =
      assocFind [("app", true), ("svc", true)] "svc" := by
  refine ⟨(shutdown_marks_only_app_not_ready _ 7 none).1,
          (shutdown_marks_only_app_not_ready _ 7 none).2.1 "svc" (by decide)⟩

/-- C5: for every request that reaches the instrumentation middleware and
whose handler returns, the latency count at labels (service, endpoint)
increases by exactly one and every other label is untouched; the error
counter at those labels increases by exactly one exactly when the handler
returned a non-nil error, regardless of the returned status code. -/
theorem instrumentation_scores_latency_once_errors_iff
    (handler : Request → Nat × Option String) (m : ServiceMetrics)
    (s e : String) (r : Request) (p : String × String) :
    ((instrumentationMiddleware handler m s e r).1).latencyCount p =
      (if p = (s, e) then m.latencyCount p + 1 else m.latencyCount p)
    ∧ ((instrumentationMiddleware handler m s e r).1).errorsCounter p =
      (if p = (s, e) ∧ (handler r).2.isSome
       then m.errorsCounter p + 1 else m.errorsCounter p) := by
  constructor
  · simp [instrumentationMiddleware, ScoreMethod, counterAdd]
  · by_cases hp : p = (s, e) <;> by_cases he : (handler r).2.isSome <;>
      simp [instrumentationMiddleware, ScoreMethod, counterAdd, isErrorGo, hp, he]

/-- C6: over every realisable operation sequence, IsReady holds exactly
when every registered name's most recent report was Ready; registration
fails exactly on an already-present name; a fresh registration starts
not-ready; the empty reporter is ready, and a single registration makes it
not ready until that name reports ready. -/
theorem status_reporter_ready_contract (ops : List StatusOp) (hwf : wfOps ops) :
    (IsReady (statusExec ops) = true ↔
      ∀ n, registersName ops n → lastReport ops n = some true)
    ∧ (∀ s n, (∃ e, GetServiceReporter s n = .error e) ↔ (assocFind s.ready n).isSome = true)
    ∧ (∀ s n s2, GetServiceReporter s n = .ok s2 → assocFind s2.ready n = some false)
    ∧ IsReady statusNew = true
    ∧ (∀ n, IsReady (statusExec [.register n]) = false
        ∧ IsReady (statusExec [.register n, .ready n]) = true) := by
  refine ⟨?_, ?_, ?_, rfl, ?_⟩
  · have hnd : (((statusExec ops).ready).map Prod.fst).Nodup := by
      have h0 : ((statusNew.ready).map Prod.fst).Nodup := by simp [statusNew]
      exact exec_nodup ops statusNew h0
    have hfind : ∀ n, assocFind (statusExec ops).ready n = flagAfter ops n := by
      intro n
      have h := exec_find ops statusNew n
      simpa [statusNew, flagAfter, assocFind] using h
    rw [show IsReady (statusExec ops) = ((statusExec ops).ready.all fun p => p.2) from rfl]
    rw [all_snd_iff_find _ hnd]
    constructor
    · intro H n hreg
      have hchar := flagAfter_characterisation ops n hwf
      have hflag := hchar.2 hreg
      have hb : ((lastReport ops n).getD false) = true :=
        H n _ (by rw [hfind]; exact hflag)
      rcases hrep : lastReport ops n with _ | b
      · rw [hrep] at hb; simp at hb
      · rw [hrep] at hb
        simp only [Option.getD_some] at hb
        rw [hb]
    · intro K n b hf
      rw [hfind] at hf
      have hchar := flagAfter_characterisation ops n hwf
      have hreg : registersName ops n := by
        by_contra hnreg
        rw [hchar.1.mpr hnreg] at hf
        cases hf
      have hflag := hchar.2 hreg
      rw [K n hreg] at hflag
      simp only [Option.getD_some] at hflag
      rw [hflag] at hf
      injection hf with hb
      exact hb.symm
  · intro s n
    constructor
    · rintro ⟨e, he⟩
      unfold GetServiceReporter at he
      by_cases hs : (assocFind s.ready n).isSome = true
      · exact hs
      · rw [if_neg hs] at he
        cases he
    · intro hs
      refine ⟨"service already registered", ?_⟩
      unfold GetServiceReporter
      rw [if_pos hs]
  · intro s n s2 hok
    unfold GetServiceReporter at hok
    by_cases hs : (assocFind s.ready n).isSome = true
    · rw [if_pos hs] at hok
      cases hok
    · rw [if_neg hs] at hok
      cases hok
      rw [assocFind_assocSet]
      simp
  · intro n
    have h1 : statusExec [StatusOp.register n] = { alive := true, ready := [(n, false)] } := by
      simp [statusExec, statusStep, GetServiceReporter, statusNew, assocFind, assocSet]
    have h2 : statusExec [StatusOp.register n, StatusOp.ready n] =
        { alive := true, ready := [(n, true)] } := by
      simp [statusExec, statusStep, GetServiceReporter, statusNew, assocFind,
        reporterReady, assocSet]
    exact ⟨by rw [h1]; rfl, by rw [h2]; rfl⟩

/-- C6 witness: the realisable sequence register "a"; ready "a". -/
theorem status_reporter_ready_contract_witness :
    wfOps [StatusOp.register "a", StatusOp.ready "a"]
    ∧ (IsReady (statusExec [StatusOp.register "a", StatusOp.ready "a"]) = true ↔
        ∀ n, registersName [StatusOp.register "a", StatusOp.ready "a"] n →
          lastReport [StatusOp.register "a", StatusOp.ready "a"] n = some true) := by
  have hwf : wfOps [StatusOp.register "a", StatusOp.ready "a"] := by
    simp [wfOps, wfFrom]
  exact ⟨hwf, (status_reporter_ready_contract _ hwf).1⟩

/-- C7 counterexample: at rate 3 the constructed burst is the float64
truncation 3, while the ceiling of 1.2 × 3 the claim describes is 4. -/
theorem burst_truncates_not_ceiling :
    rateLimitBurst 3 = 3 ∧ specCeilBurst 3 = 4 ∧ (3 : ℤ) ≠ 4 := by
  refine ⟨?_, ?_, by decide⟩
  · have hq : float64lit1p2 * 3 = (16212958658533785 : ℚ) / 4503599627370496 := by
      norm_num [float64lit1p2]
    have hexp : floatExp ((16212958658533785 : ℚ) / 4503599627370496) = 1 := by
      unfold floatExp
      rw [floatExpAux_step_div 5000 _ 0 (by norm_num) (by norm_num) (by norm_num)]
      rw [show (16212958658533785 : ℚ) / 4503599627370496 / 2
            = (16212958658533785 : ℚ) / 9007199254740992 from by norm_num]
      rw [floatExpAux_done _ _ _ (by norm_num) (by norm_num)]
      norm_num
    have hscale : floatScale (52 - 1) = 2251799813685248 := by
      norm_num [floatScale, show Int.toNat 51 = 51 from rfl]
    have hprod : (16212958658533785 : ℚ) / 4503599627370496 * 2251799813685248
        = 16212958658533785 / 2 := by norm_num
    have hfloor : Int.floor ((16212958658533785 : ℚ) / 2) = 8106479329266892 := by
      norm_num
    have hrne : roundNearestEven ((16212958658533785 : ℚ) / 2) = 8106479329266892 := by
      unfold roundNearestEven
      rw [hfloor]
      norm_num
    have hrp : floatRoundPos ((16212958658533785 : ℚ) / 4503599627370496)
        = (8106479329266892 : ℚ) / 2251799813685248 := by
      unfold floatRoundPos
      rw [hexp, hscale, hprod, hrne]
      norm_num
    show goTruncToInt (floatRound (float64lit1p2 * 3)) = 3
    rw [hq]
    unfold floatRound
    rw [if_neg (by norm_num), if_neg (by norm_num)]
    rw [hrp]
    unfold goTruncToInt
    rw [if_neg (by norm_num)]
    norm_num
  · norm_num [specCeilBurst, Int.ceil_eq_iff]

/-- C7 amended: the limiter is constructed with rate R and burst equal to
the Go truncation of the float64 product 1.2 × R (not its ceiling), the
bucket starts with a full burst of tokens, and a refused request receives
the 429 response without a token being consumed. -/
theorem rate_limiter_rate_and_refusal (r : ℚ) (l : RateLimiter)
    (h : ¬ (1 : ℚ) ≤ l.tokens) :
    (newServerRateLimiter r).limit = r
    ∧ (newServerRateLimiter r).burst = goTruncToInt (floatRound (float64lit1p2 * r))
    ∧ (newServerRateLimiter r).tokens = ((newServerRateLimiter r).burst : ℚ)
    ∧ (rateLimiterMiddleware l).1 = .refused (goHttpError 429)
    ∧ (rateLimiterMiddleware l).2.tokens = l.tokens := by
  refine ⟨rfl, rfl, rfl, ?_, ?_⟩
  · simp [rateLimiterMiddleware, limiterAllow, h]
  · simp [rateLimiterMiddleware, limiterAllow, h]

/-- C7 amended witness: rate 3, an empty bucket. -/
theorem rate_limiter_rate_and_refusal_witness :
    ¬ (1 : ℚ) ≤ (0 : ℚ)
    ∧ (newServerRateLimiter 3).limit = 3
    ∧ (rateLimiterMiddleware { limit := 3, burst := 3, tokens := 0 }).1 =
        .refused (goHttpError 429)
    ∧ (rateLimiterMiddleware { limit := 3, burst := 3, tokens := 0 }).2.tokens = 0 := by
  have h0 : ¬ (1 : ℚ) ≤ (0 : ℚ) := by norm_num
  have h := rate_limiter_rate_and_refusal 3 { limit := 3, burst := 3, tokens := 0 } h0
  exact ⟨h0, h.1, h.2.2.2.1, h.2.2.2.2⟩

/-- C8: after DefaultsAndRequired runs, every non-empty field is unchanged
and every empty field whose default literal parses in the field's type holds
the parsed value; the call errors exactly when some (possibly nested) field
is empty, required, and has no default. -/
theorem defaults_and_required_contract (cfg : List (String × CField))
    (hwf : wfRecord cfg = true) :
    ((∃ e, DefaultsAndRequired cfg = .error e) ↔ ∃ p, RequiredMissingAt cfg p)
    ∧ (∀ p k v d r, lookupPath cfg p = some (.leaf k v d r) →
        (isFieldEmpty k v = false →
          lookupPath (defsAndReqsList cfg).2 p = some (.leaf k v d r))
        ∧ (∀ lit w, isFieldEmpty k v = true → d = some lit → parseByKind k lit = some w →
            lookupPath (defsAndReqsList cfg).2 p = some (.leaf k w (some lit) r))) := by
  constructor
  · have hiff := reqs_empty_iff cfg hwf
    constructor
    · rintro ⟨e, he⟩
      by_contra hnm
      push_neg at hnm
      have hnil : (defsAndReqsList cfg).1 = [] := hiff.mpr hnm
      simp [DefaultsAndRequired, hnil] at he
    · rintro ⟨p, hp⟩
      have hne : (defsAndReqsList cfg).1 ≠ [] := fun hnil => (hiff.mp hnil p) hp
      refine ⟨"required config parameters not set: " ++
        String.intercalate ", " (defsAndReqsList cfg).1, ?_⟩
      unfold DefaultsAndRequired
      rw [if_pos (by simpa using List.length_pos.mpr hne)]
  · intro p k v d r hp
    have hlp := lookupPath_defsAndReqsList cfg p
    rw [hp] at hlp
    constructor
    · intro hne
      rw [hlp]
      cases d <;> simp [fieldOut, hne]
    · intro lit w hemp hd2 hparse
      subst hd2
      rw [hlp]
      simp [fieldOut, hemp]
      exact setFieldValue_eq_of_parse k v lit w hparse

/-- C8 witness: a record with a defaulted string field, a nested missing
required field, and a non-empty field left unchanged. -/
theorem defaults_and_required_contract_witness :
    wfRecord [("A", CField.leaf .str (.vStr "") (some "x") false),
      ("B", CField.strct [("C", CField.leaf .int (.vInt 0) none true)]),
      ("D", CField.leaf .str (.vStr "keep") none false)] = true
    ∧ ((∃ e, DefaultsAndRequired [("A", CField.leaf .str (.vStr "") (some "x") false),
        ("B", CField.strct [("C", CField.leaf .int (.vInt 0) none true)]),
        ("D", CField.leaf .str (.vStr "keep") none false)] = .error e) ↔
       ∃ p, RequiredMissingAt [("A", CField.leaf .str (.vStr "") (some "x") false),
        ("B", CField.strct [("C", CField.leaf .int (.vInt 0) none true)]),
        ("D", CField.leaf .str (.vStr "keep") none false)] p)
    ∧ lookupPath (defsAndReqsList [("A", CField.leaf .str (.vStr "") (some "x") false),
        ("B", CField.strct [("C", CField.leaf .int (.vInt 0) none true)]),
        ("D", CField.leaf .str (.vStr "keep") none false)]).2 ["D"] =
      some (CField.leaf .str (.vStr "keep") none false)
    ∧ lookupPath (defsAndReqsList [("A", CField.leaf .str (.vStr "") (some "x") false),
        ("B", CField.strct [("C", CField.leaf .int (.vInt 0) none true)]),
        ("D", CField.leaf .str (.vStr "keep") none false)]).2 ["A"] =
      some (CField.leaf .str (.vStr "x") (some "x") false) := by
  have hwf : wfRecord [("A", CField.leaf .str (.vStr "") (some "x") false),
      ("B", CField.strct [("C", CField.leaf .int (.vInt 0) none true)]),
      ("D", CField.leaf .str (.vStr "keep") none false)] = true := by
    simp [wfRecord]
  have hthm := defaults_and_required_contract _ hwf
  refine ⟨hwf, hthm.1, ?_, ?_⟩
  · exact (hthm.2 ["D"] .str (.vStr "keep") none false
      (by simp [lookupPath, assocFind])).1 (by simp [isFieldEmpty, zeroValue])
  · exact (hthm.2 ["A"] .str (.vStr "") (some "x") false
      (by simp [lookupPath, assocFind])).2 "x" (.vStr "x")
      (by simp [isFieldEmpty, zeroValue]) rfl (by simp [parseByKind])

/-- C9 counterexample: an environment variable whose value contains its own
token makes the rewrite loop run forever — no amount of fuel reaches a
fixed point — so ParseEnvVars, as a function of buffer and environment, is
not total and the claimed equation has no value on this input. -/
theorem parse_env_vars_can_diverge :
    parseEnvVarsDiverges (fun n => if n = "VAR" then "\x7b\x7bVAR\x7d\x7d" else "")
      ("\x7b\x7bVAR\x7d\x7d".data)
    ∧ parseEnvVarsGas 50 (fun n => if n = "VAR" then "\x7b\x7bVAR\x7d\x7d" else "")
        ("\x7b\x7bVAR\x7d\x7d".data) = none := by
  constructor
  · intro g
    induction g with
    | zero => rfl
    | succ g ih => exact ih
  · rfl

/-- C9 amended: whenever the rewrite loop of ParseEnvVars terminates, its
output contains no remaining \x7b\x7bIDENT\x7d\x7d token, and ParseEnvVars
is idempotent on it: running the loop again returns the same buffer at any
fuel, in particular at the fuel that produced it. -/
theorem parse_env_vars_idempotent_on_termination (g : Nat) (env : String → String)
    (buf out : List Char) (h : parseEnvVarsGas g env buf = some out) :
    findToken out = none
    ∧ (∀ g2, parseEnvVarsGas (g2 + 1) env out = some out)
    ∧ parseEnvVarsGas g env out = some out := by
  have hnt : findToken out = none := by
    induction g generalizing buf with
    | zero => cases h
    | succ g ih =>
      rw [parseEnvVarsGas] at h
      rcases hft : findToken buf with _ | ti
      · rw [hft] at h
        cases h
        exact hft
      · rw [hft] at h
        exact ih _ h
  refine ⟨hnt, ?_, ?_⟩
  · intro g2
    rw [parseEnvVarsGas, hnt]
  · obtain ⟨g2, rfl⟩ : ∃ g2, g = g2 + 1 := by
      cases g with
      | zero => cases h
      | succ g2 => exact ⟨g2, rfl⟩
    rw [parseEnvVarsGas, hnt]

/-- C9 amended witness: a buffer with one token, substituted in one pass. -/
theorem parse_env_vars_idempotent_on_termination_witness :
    parseEnvVarsGas 2 (fun n => if n = "NAME" then "value" else "")
      ("x \x7b\x7bname\x7d\x7d".data) = some ("x value".data)
    ∧ findToken ("x value".data) = none := by
  have h : parseEnvVarsGas 2 (fun n => if n = "NAME" then "value" else "")
      ("x \x7b\x7bname\x7d\x7d".data) = some ("x value".data) := by rfl
  exact ⟨h, (parse_env_vars_idempotent_on_termination 2 _ _ _ h).1⟩

/-- C10: with an empty configured token no auth provider is constructed and
the authentication middleware forwards every request; a 401 refusal implies
the configured token was nonempty. -/
theorem auth_disabled_on_empty_token :
    newServerAuthProvider "" = none
    ∧ (∀ r, authMiddleware (newServerAuthProvider "") r = .forwarded)
    ∧ (∀ t r resp, authMiddleware (newServerAuthProvider t) r = .refused resp → t ≠ "") := by
  refine ⟨rfl, fun r => rfl, ?_⟩
  intro t r resp h ht
  subst ht
  simp [newServerAuthProvider, authMiddleware] at h

/-- C10 witness: a wrong-token request under token "secret" is refused, so
the implication fires at a concrete input. -/
theorem auth_disabled_on_empty_token_witness :
    authMiddleware (newServerAuthProvider "secret") { headers := [], remoteAddr := "" } =
      .refused (goHttpError 401)
    ∧ ("secret" : String) ≠ "" := by
  refine ⟨by decide, ?_⟩
  exact auth_disabled_on_empty_token.2.2 "secret" { headers := [], remoteAddr := "" }
    (goHttpError 401) (by decide)

end Goblocks
